import Mathlib

/-!
Verification development for the mirgecom Euler test corpus.

The repository carries two source files: `get_box_mesh.py` (a small mesh
helper) and `test/test_euler.py` (tests and a time-stepping driver for the
Euler gas-dynamics operator).  The mirgecom library itself (conserved-state
container, numerical fluxes, the Euler operator, entropy-variable
conversions) is an external dependency of those files; where a claim is
decided by that library its behaviour is modelled from the specification,
and each such definition says so in its doc comment.  The stepping driver
`_euler_flow_stepper` and `get_box_mesh` are embedded directly from the
source files.

All exact arithmetic is over `ℚ` (the entropy-variable change of variables
uses `ℝ` because it involves `log`/`exp`).
-/

set_option maxHeartbeats 1000000

/-- Modelled from the spec (§3 ConservedState, `mirgecom.fluid.make_conserved`
is not under `src/`): the conserved-variable aggregate with `dim` momentum
components and `ns` species mass fields. -/
structure ConservedVars (K : Type) (dim ns : ℕ) where
  mass : K
  energy : K
  momentum : Fin dim → K
  species_mass : Fin ns → K

namespace ConservedVars

variable {K : Type} {dim ns : ℕ}

/-- Componentwise addition (spec §3: elementwise vector-space operations). -/
def add [Add K] (x y : ConservedVars K dim ns) : ConservedVars K dim ns :=
  ⟨x.mass + y.mass, x.energy + y.energy,
   fun i => x.momentum i + y.momentum i,
   fun j => x.species_mass j + y.species_mass j⟩

/-- Componentwise subtraction. -/
def sub [Sub K] (x y : ConservedVars K dim ns) : ConservedVars K dim ns :=
  ⟨x.mass - y.mass, x.energy - y.energy,
   fun i => x.momentum i - y.momentum i,
   fun j => x.species_mass j - y.species_mass j⟩

/-- Componentwise negation. -/
def neg [Neg K] (x : ConservedVars K dim ns) : ConservedVars K dim ns :=
  ⟨-x.mass, -x.energy, fun i => -x.momentum i, fun j => -x.species_mass j⟩

/-- Scalar multiple. -/
def smul [Mul K] (a : K) (x : ConservedVars K dim ns) : ConservedVars K dim ns :=
  ⟨a * x.mass, a * x.energy, fun i => a * x.momentum i, fun j => a * x.species_mass j⟩

/-- The zero state. -/
def zero [Zero K] : ConservedVars K dim ns :=
  ⟨0, 0, fun _ => 0, fun _ => 0⟩

theorem ext_comp {x y : ConservedVars K dim ns}
    (h1 : x.mass = y.mass) (h2 : x.energy = y.energy)
    (h3 : ∀ i, x.momentum i = y.momentum i)
    (h4 : ∀ j, x.species_mass j = y.species_mass j) : x = y := by
  cases x; cases y
  simp only [mk.injEq]
  exact ⟨h1, h2, funext h3, funext h4⟩

/-- Sum of a list of conserved states (used to accumulate face contributions). -/
def lsum [Add K] [Zero K] (l : List (ConservedVars K dim ns)) : ConservedVars K dim ns :=
  l.foldr add zero

@[simp] theorem lsum_nil [Add K] [Zero K] :
    lsum ([] : List (ConservedVars K dim ns)) = zero := rfl

@[simp] theorem lsum_cons [Add K] [Zero K] (x : ConservedVars K dim ns) (l) :
    lsum (x :: l) = x.add (lsum l) := rfl

theorem lsum_mass [AddCommMonoid K] (l : List (ConservedVars K dim ns)) :
    (lsum l).mass = (l.map mass).sum := by
  induction l with
  | nil => rfl
  | cons x l ih => simp [add, ih]

theorem lsum_energy [AddCommMonoid K] (l : List (ConservedVars K dim ns)) :
    (lsum l).energy = (l.map energy).sum := by
  induction l with
  | nil => rfl
  | cons x l ih => simp [add, ih]

theorem lsum_momentum [AddCommMonoid K] (l : List (ConservedVars K dim ns)) (i : Fin dim) :
    (lsum l).momentum i = (l.map (fun x => x.momentum i)).sum := by
  induction l with
  | nil => rfl
  | cons x l ih => simp [add, ih]

theorem lsum_species [AddCommMonoid K] (l : List (ConservedVars K dim ns)) (j : Fin ns) :
    (lsum l).species_mass j = (l.map (fun x => x.species_mass j)).sum := by
  induction l with
  | nil => rfl
  | cons x l ih => simp [add, ih]

end ConservedVars

/-- Modelled from the spec (§3 FluidState, `mirgecom.gas_model.make_fluid_state`
is not under `src/`): the conserved state bundled with the EOS-derived
pressure and speed of sound, computed once and reused. -/
structure FluidState (K : Type) (dim ns : ℕ) where
  cv : ConservedVars K dim ns
  pressure : K
  soundSpeed : K

namespace FluidState

variable {K : Type} [LinearOrderedField K] {dim ns : ℕ}

/-- Velocity, recovered from momentum and density. -/
def velocity (fs : FluidState K dim ns) (i : Fin dim) : K :=
  fs.cv.momentum i / fs.cv.mass

/-- Normal velocity `u · n`. -/
def vdotn (fs : FluidState K dim ns) (n : Fin dim → K) : K :=
  ∑ i, fs.velocity i * n i

theorem vdotn_neg (fs : FluidState K dim ns) (n : Fin dim → K) :
    fs.vdotn (fun i => -n i) = -fs.vdotn n := by
  simp [vdotn, mul_neg, Finset.sum_neg_distrib]

end FluidState

/-- Modelled from the spec (§4.3, `mirgecom.inviscid` is not under `src/`):
the physical inviscid flux tensor contracted with a normal `n`, i.e.
`F(q)·n` with components `(ρ u·n, (ρE + p) u·n, ρ u_i u·n + p n_i, ρY_j u·n)`. -/
def inviscid_flux_normal {K : Type} [LinearOrderedField K] {dim ns : ℕ}
    (fs : FluidState K dim ns) (n : Fin dim → K) : ConservedVars K dim ns :=
  let un := fs.vdotn n
  { mass := fs.cv.mass * un
    energy := (fs.cv.energy + fs.pressure) * un
    momentum := fun i => fs.cv.mass * fs.velocity i * un + fs.pressure * n i
    species_mass := fun j => fs.cv.species_mass j * un }

/-- Modelled from the spec (§4.3): the maximum signal speed `|u·n| + c` of a
single state, used to scale the Rusanov penalty term. -/
def wavespeed {K : Type} [LinearOrderedField K] {dim ns : ℕ}
    (fs : FluidState K dim ns) (n : Fin dim → K) : K :=
  |fs.vdotn n| + fs.soundSpeed

/-- Modelled from the spec (§4.3, `mirgecom.inviscid.inviscid_facial_flux_rusanov`
is not under `src/`): average of the two physical fluxes minus a penalty
scaled by the larger of the two signal speeds, times the state jump. -/
def inviscid_facial_flux_rusanov {K : Type} [LinearOrderedField K] {dim ns : ℕ}
    (a b : FluidState K dim ns) (n : Fin dim → K) : ConservedVars K dim ns :=
  let fa := inviscid_flux_normal a n
  let fb := inviscid_flux_normal b n
  let lam := max (wavespeed a n) (wavespeed b n)
  { mass := (fa.mass + fb.mass) / 2 - lam * (b.cv.mass - a.cv.mass) / 2
    energy := (fa.energy + fb.energy) / 2 - lam * (b.cv.energy - a.cv.energy) / 2
    momentum := fun i =>
      (fa.momentum i + fb.momentum i) / 2 - lam * (b.cv.momentum i - a.cv.momentum i) / 2
    species_mass := fun j =>
      (fa.species_mass j + fb.species_mass j) / 2
        - lam * (b.cv.species_mass j - a.cv.species_mass j) / 2 }

/-- Leftmost wave-speed estimate for the HLL solver (min of the two states'
smallest eigenvalues `u·n − c`). -/
def hll_sminus {K : Type} [LinearOrderedField K] {dim ns : ℕ}
    (a b : FluidState K dim ns) (n : Fin dim → K) : K :=
  min (a.vdotn n - a.soundSpeed) (b.vdotn n - b.soundSpeed)

/-- Rightmost wave-speed estimate for the HLL solver (max of the two states'
largest eigenvalues `u·n + c`). -/
def hll_splus {K : Type} [LinearOrderedField K] {dim ns : ℕ}
    (a b : FluidState K dim ns) (n : Fin dim → K) : K :=
  max (a.vdotn n + a.soundSpeed) (b.vdotn n + b.soundSpeed)

/-- The two-wave blended flux used by the HLL solver in the subsonic case. -/
def hll_blend {K : Type} [LinearOrderedField K] {dim ns : ℕ}
    (a b : FluidState K dim ns) (n : Fin dim → K) : ConservedVars K dim ns :=
  let fa := inviscid_flux_normal a n
  let fb := inviscid_flux_normal b n
  let sm := hll_sminus a b n
  let sp := hll_splus a b n
  { mass := (sp * fa.mass - sm * fb.mass + sp * sm * (b.cv.mass - a.cv.mass)) / (sp - sm)
    energy := (sp * fa.energy - sm * fb.energy
                + sp * sm * (b.cv.energy - a.cv.energy)) / (sp - sm)
    momentum := fun i =>
      (sp * fa.momentum i - sm * fb.momentum i
        + sp * sm * (b.cv.momentum i - a.cv.momentum i)) / (sp - sm)
    species_mass := fun j =>
      (sp * fa.species_mass j - sm * fb.species_mass j
        + sp * sm * (b.cv.species_mass j - a.cv.species_mass j)) / (sp - sm) }

/-- Modelled from the spec (§4.3, `mirgecom.inviscid.inviscid_facial_flux_hll`
is not under `src/`): two-wave approximate Riemann solver blending the
two-sided fluxes with the leftmost/rightmost wave-speed estimates,
degenerating to pure upwinding when both estimated speeds share sign. -/
def inviscid_facial_flux_hll {K : Type} [LinearOrderedField K] {dim ns : ℕ}
    (a b : FluidState K dim ns) (n : Fin dim → K) : ConservedVars K dim ns :=
  if 0 ≤ hll_sminus a b n then inviscid_flux_normal a n
  else if hll_splus a b n ≤ 0 then inviscid_flux_normal b n
  else hll_blend a b n

section FluxLemmas

variable {K : Type} [LinearOrderedField K] {dim ns : ℕ}

theorem inviscid_flux_normal_neg (fs : FluidState K dim ns) (n : Fin dim → K) :
    inviscid_flux_normal fs (fun i => -n i) = (inviscid_flux_normal fs n).neg := by
  refine ConservedVars.ext_comp ?_ ?_ (fun i => ?_) (fun j => ?_) <;>
    simp [inviscid_flux_normal, ConservedVars.neg, FluidState.vdotn_neg] <;> ring

theorem wavespeed_neg (fs : FluidState K dim ns) (n : Fin dim → K) :
    wavespeed fs (fun i => -n i) = wavespeed fs n := by
  simp [wavespeed, FluidState.vdotn_neg]

theorem hll_sminus_swap (a b : FluidState K dim ns) (n : Fin dim → K) :
    hll_sminus b a (fun i => -n i) = -hll_splus a b n := by
  simp only [hll_sminus, hll_splus, FluidState.vdotn_neg]
  rw [max_comm]
  rw [show ∀ x y : K, -x - y = -(x + y) by intro x y; ring]
  rw [show ∀ x y : K, -x - y = -(x + y) by intro x y; ring]
  exact min_neg_neg _ _

theorem hll_splus_swap (a b : FluidState K dim ns) (n : Fin dim → K) :
    hll_splus b a (fun i => -n i) = -hll_sminus a b n := by
  simp only [hll_sminus, hll_splus, FluidState.vdotn_neg]
  rw [min_comm]
  rw [show ∀ x y : K, -x + y = -(x - y) by intro x y; ring]
  rw [show ∀ x y : K, -x + y = -(x - y) by intro x y; ring]
  exact max_neg_neg _ _

theorem hll_sminus_lt_splus (a b : FluidState K dim ns) (n : Fin dim → K)
    (ha : 0 < a.soundSpeed) : hll_sminus a b n < hll_splus a b n :=
  lt_of_le_of_lt (min_le_left _ _)
    (lt_of_lt_of_le (by linarith) (le_max_left _ _))

end FluxLemmas

section FluxConsistency

variable {K : Type} [LinearOrderedField K] {dim ns : ℕ}

/-- Consistency of the Rusanov flux: when both sides agree it reduces to the
physical flux (spec §4.3). -/
theorem rusanov_consistent (fs : FluidState K dim ns) (n : Fin dim → K) :
    inviscid_facial_flux_rusanov fs fs n = inviscid_flux_normal fs n := by
  refine ConservedVars.ext_comp ?_ ?_ (fun i => ?_) (fun j => ?_) <;>
    simp only [inviscid_facial_flux_rusanov] <;> ring

/-- Consistency of the HLL flux: when both sides agree it reduces to the
physical flux (spec §4.3). -/
theorem hll_consistent (fs : FluidState K dim ns) (n : Fin dim → K) :
    inviscid_facial_flux_hll fs fs n = inviscid_flux_normal fs n := by
  unfold inviscid_facial_flux_hll
  split_ifs with h1 h2
  · rfl
  · rfl
  · have hlt : hll_sminus fs fs n < hll_splus fs fs n := by
      push_neg at h1 h2
      exact lt_trans h1 h2
    have hne : hll_splus fs fs n - hll_sminus fs fs n ≠ 0 := by
      intro h; exact absurd (by linarith : hll_splus fs fs n ≤ hll_sminus fs fs n) (not_le.mpr hlt)
    refine ConservedVars.ext_comp ?_ ?_ (fun i => ?_) (fun j => ?_) <;>
      (simp only [hll_blend]; field_simp; ring)

end FluxConsistency

/-- `C4`: for both numerical flux variants, for valid fluid states `a b`
(positive sound speeds) and a unit normal `n`, the fluxes are conservative:
`flux(a, b, n) + flux(b, a, −n) = 0` in every component. -/
theorem C4_flux_antisymmetry {dim ns : ℕ} (a b : FluidState ℚ dim ns)
    (n : Fin dim → ℚ) (ha : 0 < a.soundSpeed) (hb : 0 < b.soundSpeed)
    (hn : ∑ i, n i ^ 2 = 1) :
    (inviscid_facial_flux_rusanov a b n).add
        (inviscid_facial_flux_rusanov b a (fun i => -n i)) = ConservedVars.zero
    ∧ (inviscid_facial_flux_hll a b n).add
        (inviscid_facial_flux_hll b a (fun i => -n i)) = ConservedVars.zero := by
  constructor
  · have hw : max (wavespeed b (fun i => -n i)) (wavespeed a (fun i => -n i))
        = max (wavespeed a n) (wavespeed b n) := by
      rw [wavespeed_neg, wavespeed_neg, max_comm]
    refine ConservedVars.ext_comp ?_ ?_ (fun i => ?_) (fun j => ?_) <;>
      simp only [inviscid_facial_flux_rusanov, ConservedVars.add, ConservedVars.zero, hw,
        inviscid_flux_normal_neg, ConservedVars.neg] <;> ring
  · have hsm : hll_sminus b a (fun i => -n i) = -hll_splus a b n := hll_sminus_swap a b n
    have hsp : hll_splus b a (fun i => -n i) = -hll_sminus a b n := hll_splus_swap a b n
    have hlt : hll_sminus a b n < hll_splus a b n := hll_sminus_lt_splus a b n ha
    unfold inviscid_facial_flux_hll
    rw [hsm, hsp]
    by_cases h1 : 0 ≤ hll_sminus a b n
    · -- both waves move right: left upwind on both sides
      have hsp0 : 0 < hll_splus a b n := lt_of_le_of_lt h1 hlt
      rw [if_pos h1, if_neg (by linarith : ¬ (0:ℚ) ≤ -hll_splus a b n),
        if_pos (by linarith : -hll_sminus a b n ≤ 0), inviscid_flux_normal_neg]
      refine ConservedVars.ext_comp ?_ ?_ (fun i => ?_) (fun j => ?_) <;>
        simp [ConservedVars.add, ConservedVars.neg, ConservedVars.zero]
    · by_cases h2 : hll_splus a b n ≤ 0
      · -- both waves move left: right upwind on both sides
        rw [if_neg h1, if_pos h2, if_pos (by linarith : (0:ℚ) ≤ -hll_splus a b n),
          inviscid_flux_normal_neg]
        refine ConservedVars.ext_comp ?_ ?_ (fun i => ?_) (fun j => ?_) <;>
          simp [ConservedVars.add, ConservedVars.neg, ConservedVars.zero]
      · -- subsonic: the blended flux on both sides
        push_neg at h1 h2
        rw [if_neg (not_le.mpr h1), if_neg (not_le.mpr h2),
          if_neg (by linarith : ¬ (0:ℚ) ≤ -hll_splus a b n),
          if_neg (by linarith : ¬ -hll_sminus a b n ≤ 0)]
        simp only [hll_blend, hsm, hsp, inviscid_flux_normal_neg]
        refine ConservedVars.ext_comp ?_ ?_ (fun i => ?_) (fun j => ?_) <;>
          · simp only [ConservedVars.add, ConservedVars.neg, ConservedVars.zero]
            rw [show -hll_sminus a b n - -hll_splus a b n
                = hll_splus a b n - hll_sminus a b n by ring, div_add_div_same,
              div_eq_zero_iff]
            left
            ring

/-- A concrete valid left state for the flux-antisymmetry witness. -/
def c4_state_a : FluidState ℚ 1 0 :=
  ⟨⟨1, 5/2, fun _ => 1, Fin.elim0⟩, 1, 1⟩

/-- A concrete valid right state for the flux-antisymmetry witness. -/
def c4_state_b : FluidState ℚ 1 0 :=
  ⟨⟨2, 3, fun _ => -1, Fin.elim0⟩, 2, 1⟩

/-- A concrete unit normal for the flux-antisymmetry witness. -/
def c4_normal : Fin 1 → ℚ := fun _ => 1

/-- Witness for `C4_flux_antisymmetry` at a concrete pair of valid 1-D states. -/
theorem C4_flux_antisymmetry_witness :
    (inviscid_facial_flux_rusanov c4_state_a c4_state_b c4_normal).add
        (inviscid_facial_flux_rusanov c4_state_b c4_state_a (fun i => -c4_normal i))
      = ConservedVars.zero
    ∧ (inviscid_facial_flux_hll c4_state_a c4_state_b c4_normal).add
        (inviscid_facial_flux_hll c4_state_b c4_state_a (fun i => -c4_normal i))
      = ConservedVars.zero :=
  C4_flux_antisymmetry c4_state_a c4_state_b c4_normal
    (by norm_num [c4_state_a]) (by norm_num [c4_state_b])
    (by norm_num [c4_normal, Fin.sum_univ_one])

/-- A mesh face of the discretization skeleton: the owning cell, the
neighboring cell (`none` for a boundary face), the outward normal seen from
the owner, and the face weight (area). -/
structure MeshFace (dim ncell : ℕ) (K : Type) where
  owner : Fin ncell
  neighbor : Option (Fin ncell)
  normal : Fin dim → K
  area : K

/-- Signed weight with which the face flux enters cell `c`'s right-hand
side: what leaves the owner enters the neighbor (spec §4.5 steps 3-4, sign
convention of step 6). -/
def faceCoeff {dim ncell : ℕ} {K : Type} [Neg K] [Zero K] [Add K]
    (c : Fin ncell) (f : MeshFace dim ncell K) : K :=
  (if f.owner = c then -f.area else 0) + (if f.neighbor = some c then f.area else 0)

/-- Modelled from the spec (§4.4, `mirgecom.boundary.DummyBoundary` is not
under `src/`): exterior state = interior state (zero-flux/no-op boundary). -/
def DummyBoundary {K : Type} {dim ns : ℕ} :
    FluidState K dim ns → FluidState K dim ns := fun s => s

/-- Modelled from the spec (§4.5, `mirgecom.euler.euler_operator` is not
under `src/`): the conservative face-exchange form of the DG right-hand
side.  Every face evaluates the numerical flux between the owner's trace
and the exterior trace (the neighbor's trace on interior faces, the
boundary object's exterior state on boundary faces), and the signed flux is
accumulated into both adjacent cells, so that a spatially uniform state
with matching boundary data yields an RHS of exactly zero (§4.5 step 6). -/
def euler_operator {K : Type} [LinearOrderedField K] {dim ncell ns : ℕ}
    (faces : List (MeshFace dim ncell K))
    (numflux : FluidState K dim ns → FluidState K dim ns → (Fin dim → K) → ConservedVars K dim ns)
    (bc : FluidState K dim ns → FluidState K dim ns)
    (q : Fin ncell → FluidState K dim ns) : Fin ncell → ConservedVars K dim ns :=
  fun c => ConservedVars.lsum (faces.map (fun f =>
    let exterior := match f.neighbor with
      | some cp => q cp
      | none => bc (q f.owner)
    (numflux (q f.owner) exterior f.normal).smul (faceCoeff c f)))

section ListSumHelpers

variable {K : Type} [LinearOrderedField K]

theorem list_sum_map_fin_sum {α : Type} {d : ℕ} (l : List α) (g : α → Fin d → K) :
    (l.map (fun x => ∑ i, g x i)).sum = ∑ i, (l.map (fun x => g x i)).sum := by
  induction l with
  | nil => simp
  | cons x l ih => simp [ih, Finset.sum_add_distrib]

theorem list_sum_map_mul_const {α : Type} (l : List α) (g : α → K) (r : K) :
    (l.map (fun x => r * g x)).sum = r * (l.map g).sum := by
  induction l with
  | nil => simp
  | cons x l ih => simp [ih]; ring

end ListSumHelpers

section UniformRhs

variable {K : Type} [LinearOrderedField K] {dim ncell ns : ℕ}

/-- The geometric closedness of a cell: the signed area-weighted normals of
its faces sum to zero in every coordinate (the discrete divergence theorem
applied to constants, guaranteed by any watertight mesh). -/
def cellClosed (faces : List (MeshFace dim ncell K)) : Prop :=
  ∀ c : Fin ncell, ∀ i : Fin dim,
    (faces.map (fun f => faceCoeff c f * f.normal i)).sum = 0

/-- On a uniform state with the `DummyBoundary`, each face of the operator
contributes the scaled physical flux, for any consistent numerical flux. -/
theorem euler_operator_uniform (faces : List (MeshFace dim ncell K))
    (numflux : FluidState K dim ns → FluidState K dim ns → (Fin dim → K) → ConservedVars K dim ns)
    (fs : FluidState K dim ns)
    (hcons : numflux fs fs = inviscid_flux_normal fs) :
    euler_operator faces numflux DummyBoundary (fun _ => fs)
      = fun c => ConservedVars.lsum (faces.map (fun f =>
          (inviscid_flux_normal fs f.normal).smul (faceCoeff c f))) := by
  funext c
  unfold euler_operator
  congr 1
  apply List.map_congr_left
  intro f _
  cases hnb : f.neighbor <;> simp [DummyBoundary, hnb, hcons]

/-- Each conserved component of the physical normal flux is a linear
function of the normal: `F(q)·n`'s component `k` equals `∑ i, T k i * n i`
for a state-dependent tensor `T`. -/
theorem uniform_rhs_component_zero (faces : List (MeshFace dim ncell K))
    (hclosed : cellClosed faces) (c : Fin ncell) (T : Fin dim → K) :
    (faces.map (fun f => faceCoeff c f * ∑ i, T i * f.normal i)).sum = 0 := by
  have h1 : ∀ f : MeshFace dim ncell K,
      faceCoeff c f * ∑ i, T i * f.normal i
        = ∑ i, T i * (faceCoeff c f * f.normal i) := by
    intro f
    rw [Finset.mul_sum]
    exact Finset.sum_congr rfl (fun i _ => by ring)
  calc (faces.map (fun f => faceCoeff c f * ∑ i, T i * f.normal i)).sum
      = (faces.map (fun f => ∑ i, T i * (faceCoeff c f * f.normal i))).sum := by
        exact congrArg List.sum (List.map_congr_left (fun f _ => h1 f))
    _ = ∑ i, (faces.map (fun f => T i * (faceCoeff c f * f.normal i))).sum :=
        list_sum_map_fin_sum faces _
    _ = ∑ i, T i * (faces.map (fun f => faceCoeff c f * f.normal i)).sum :=
        Finset.sum_congr rfl (fun i _ => list_sum_map_mul_const faces _ _)
    _ = 0 := by
        refine Finset.sum_eq_zero (fun i _ => ?_)
        rw [hclosed c i, mul_zero]

end UniformRhs

section FluxLinearity

variable {K : Type} [LinearOrderedField K] {dim ns : ℕ}

theorem flux_mass_linear (fs : FluidState K dim ns) (n : Fin dim → K) :
    (inviscid_flux_normal fs n).mass
      = ∑ i, (fs.cv.mass * fs.velocity i) * n i := by
  simp only [inviscid_flux_normal, FluidState.vdotn]
  rw [Finset.mul_sum]
  exact Finset.sum_congr rfl (fun i _ => by ring)

theorem flux_energy_linear (fs : FluidState K dim ns) (n : Fin dim → K) :
    (inviscid_flux_normal fs n).energy
      = ∑ i, ((fs.cv.energy + fs.pressure) * fs.velocity i) * n i := by
  simp only [inviscid_flux_normal, FluidState.vdotn]
  rw [Finset.mul_sum]
  exact Finset.sum_congr rfl (fun i _ => by ring)

theorem flux_momentum_linear (fs : FluidState K dim ns) (n : Fin dim → K) (k : Fin dim) :
    (inviscid_flux_normal fs n).momentum k
      = ∑ i, (fs.cv.mass * fs.velocity k * fs.velocity i
          + (if i = k then fs.pressure else 0)) * n i := by
  simp only [inviscid_flux_normal, FluidState.vdotn, add_mul, ite_mul, zero_mul]
  rw [Finset.sum_add_distrib, Finset.sum_ite_eq' Finset.univ k (fun i => fs.pressure * n i)]
  simp only [Finset.mem_univ, if_true]
  congr 1
  rw [Finset.mul_sum]
  exact Finset.sum_congr rfl (fun i _ => by ring)

theorem flux_species_linear (fs : FluidState K dim ns) (n : Fin dim → K) (j : Fin ns) :
    (inviscid_flux_normal fs n).species_mass j
      = ∑ i, (fs.cv.species_mass j * fs.velocity i) * n i := by
  simp only [inviscid_flux_normal, FluidState.vdotn]
  rw [Finset.mul_sum]
  exact Finset.sum_congr rfl (fun i _ => by ring)

end FluxLinearity

/-- The primary correctness invariant of the operator (spec §4.5 step 6): a
spatially uniform state with the `DummyBoundary` and any consistent
numerical flux has an exactly zero right-hand side on a watertight mesh. -/
theorem euler_operator_uniform_zero {K : Type} [LinearOrderedField K]
    {dim ncell ns : ℕ} (faces : List (MeshFace dim ncell K))
    (hclosed : cellClosed faces)
    (numflux : FluidState K dim ns → FluidState K dim ns → (Fin dim → K) → ConservedVars K dim ns)
    (fs : FluidState K dim ns)
    (hcons : numflux fs fs = inviscid_flux_normal fs) :
    euler_operator faces numflux DummyBoundary (fun _ => fs)
      = fun _ => ConservedVars.zero := by
  rw [euler_operator_uniform faces numflux fs hcons]
  funext c
  refine ConservedVars.ext_comp ?_ ?_ (fun k => ?_) (fun j => ?_)
  · rw [ConservedVars.lsum_mass, List.map_map]
    rw [show (ConservedVars.mass ∘ fun f : MeshFace dim ncell K =>
          (inviscid_flux_normal fs f.normal).smul (faceCoeff c f))
        = fun f => faceCoeff c f * ∑ i, (fs.cv.mass * fs.velocity i) * f.normal i from
      funext (fun f => by simp [ConservedVars.smul, flux_mass_linear])]
    exact uniform_rhs_component_zero faces hclosed c _
  · rw [ConservedVars.lsum_energy, List.map_map]
    rw [show (ConservedVars.energy ∘ fun f : MeshFace dim ncell K =>
          (inviscid_flux_normal fs f.normal).smul (faceCoeff c f))
        = fun f => faceCoeff c f
            * ∑ i, ((fs.cv.energy + fs.pressure) * fs.velocity i) * f.normal i from
      funext (fun f => by simp [ConservedVars.smul, flux_energy_linear])]
    exact uniform_rhs_component_zero faces hclosed c _
  · rw [ConservedVars.lsum_momentum, List.map_map]
    rw [show ((fun x : ConservedVars K dim ns => x.momentum k) ∘ fun f : MeshFace dim ncell K =>
          (inviscid_flux_normal fs f.normal).smul (faceCoeff c f))
        = fun f => faceCoeff c f * ∑ i, (fs.cv.mass * fs.velocity k * fs.velocity i
            + (if i = k then fs.pressure else 0)) * f.normal i from
      funext (fun f => by simp [ConservedVars.smul, flux_momentum_linear])]
    exact uniform_rhs_component_zero faces hclosed c _
  · rw [ConservedVars.lsum_species, List.map_map]
    rw [show ((fun x : ConservedVars K dim ns => x.species_mass j) ∘ fun f : MeshFace dim ncell K =>
          (inviscid_flux_normal fs f.normal).smul (faceCoeff c f))
        = fun f => faceCoeff c f
            * ∑ i, (fs.cv.species_mass j * fs.velocity i) * f.normal i from
      funext (fun f => by simp [ConservedVars.smul, flux_species_linear])]
    exact uniform_rhs_component_zero faces hclosed c _

/-- Every component of a conserved state is below `tol` in absolute value
(the discrete ∞-norm bound used by the uniform-flow test). -/
def all_components_below {dim ns : ℕ} (x : ConservedVars ℚ dim ns) (tol : ℚ) : Prop :=
  |x.mass| < tol ∧ |x.energy| < tol
    ∧ (∀ i, |x.momentum i| < tol) ∧ (∀ j, |x.species_mass j| < tol)

/-- `C1`: on any watertight mesh, for any dimension, species count and
uniform state (zero or nonzero uniform velocity) with the zero-flux
`DummyBoundary`, the Euler operator's RHS has every component below `1e-9`
in ∞-norm, for both the Rusanov and the HLL numerical flux. -/
theorem C1_uniform_rhs {dim ncell ns : ℕ} (faces : List (MeshFace dim ncell ℚ))
    (hclosed : cellClosed faces) (fs : FluidState ℚ dim ns) :
    (∀ c, all_components_below
      (euler_operator faces inviscid_facial_flux_rusanov DummyBoundary (fun _ => fs) c) (1e-9))
    ∧ (∀ c, all_components_below
      (euler_operator faces inviscid_facial_flux_hll DummyBoundary (fun _ => fs) c) (1e-9)) := by
  have hz1 := euler_operator_uniform_zero faces hclosed inviscid_facial_flux_rusanov fs
    (funext (rusanov_consistent fs))
  have hz2 := euler_operator_uniform_zero faces hclosed inviscid_facial_flux_hll fs
    (funext (hll_consistent fs))
  constructor <;> intro c
  · rw [hz1]
    refine ⟨by norm_num [ConservedVars.zero], by norm_num [ConservedVars.zero],
      fun i => by norm_num [ConservedVars.zero], fun j => by norm_num [ConservedVars.zero]⟩
  · rw [hz2]
    refine ⟨by norm_num [ConservedVars.zero], by norm_num [ConservedVars.zero],
      fun i => by norm_num [ConservedVars.zero], fun j => by norm_num [ConservedVars.zero]⟩

/-- A concrete 1-D two-cell watertight mesh: a boundary face on each end and
one interior face shared by the two cells. -/
def c1_faces : List (MeshFace 1 2 ℚ) :=
  [⟨0, none, fun _ => -1, 1⟩, ⟨0, some 1, fun _ => 1, 1⟩, ⟨1, none, fun _ => 1, 1⟩]

/-- A concrete uniform state with ten species and a nonzero velocity. -/
def c1_state : FluidState ℚ 1 10 :=
  ⟨⟨1, 5/2, fun _ => 1, fun _ => 1/10⟩, 1, 1⟩

/-- Witness for `C1_uniform_rhs` on the concrete two-cell mesh. -/
theorem C1_uniform_rhs_witness :
    (∀ c, all_components_below
      (euler_operator c1_faces inviscid_facial_flux_rusanov DummyBoundary
        (fun _ => c1_state) c) (1e-9))
    ∧ (∀ c, all_components_below
      (euler_operator c1_faces inviscid_facial_flux_hll DummyBoundary
        (fun _ => c1_state) c) (1e-9)) :=
  C1_uniform_rhs c1_faces
    (by intro c i
        fin_cases c <;> fin_cases i <;> simp [c1_faces, faceCoeff])
    c1_state

/-- Modelled from the spec (§4.1, `mirgecom.eos.IdealSingleGas` is not under
`src/`): the ideal-gas pressure `p = (γ − 1)(ρE − |ρu|²/(2ρ))`. -/
def eos_pressure {K : Type} [LinearOrderedField K] {dim ns : ℕ}
    (γ : K) (cv : ConservedVars K dim ns) : K :=
  (γ - 1) * (cv.energy - (∑ i, cv.momentum i ^ 2) / (2 * cv.mass))

/-- Modelled from the spec (§4.2, `mirgecom.gas_model.make_fluid_state` is
not under `src/`): bundle a conserved state with its EOS-derived pressure
and sound speed `c = √(γp/ρ)`. -/
noncomputable def make_fluid_state {dim ns : ℕ} (γ : ℝ) (cv : ConservedVars ℝ dim ns) :
    FluidState ℝ dim ns :=
  ⟨cv, eos_pressure γ cv, Real.sqrt (γ * eos_pressure γ cv / cv.mass)⟩

/-- Modelled from the spec (§4.2, `mirgecom.gas_model.conservative_to_entropy_vars`
is not under `src/`): the entropy variables of the γ-law gas,
`v = ((γ − s)/(γ − 1) − β|u|²/2, β u, −β, β Y)` with `s = log p − γ log ρ`
and `β = ρ/p`. -/
noncomputable def conservative_to_entropy_vars {dim ns : ℕ} (γ : ℝ)
    (fs : FluidState ℝ dim ns) : ConservedVars ℝ dim ns :=
  let ρ := fs.cv.mass
  let p := fs.pressure
  let u2 := ∑ i, fs.velocity i ^ 2
  let s := Real.log p - γ * Real.log ρ
  let rp := ρ / p
  { mass := (γ - s) / (γ - 1) - rp * u2 / 2
    energy := -rp
    momentum := fun i => rp * fs.velocity i
    species_mass := fun j => rp * (fs.cv.species_mass j / ρ) }

/-- Modelled from the spec (§4.2, `mirgecom.gas_model.entropy_to_conservative_vars`
is not under `src/`): the inverse change of variables, recovering
`β = −v_energy`, `u = v_mom/β`, `s`, then `ρ = exp(−(s + log β)/(γ − 1))`
and `p = ρ/β`. -/
noncomputable def entropy_to_conservative_vars {dim ns : ℕ} (γ : ℝ)
    (ev : ConservedVars ℝ dim ns) : ConservedVars ℝ dim ns :=
  let rp := -ev.energy
  let u := fun i => ev.momentum i / rp
  let u2 := ∑ i, u i ^ 2
  let s := γ - (γ - 1) * (ev.mass + rp * u2 / 2)
  let ρ := Real.exp (-(s + Real.log rp) / (γ - 1))
  let p := ρ / rp
  { mass := ρ
    energy := p / (γ - 1) + ρ * u2 / 2
    momentum := fun i => ρ * u i
    species_mass := fun j => ρ * (ev.species_mass j / rp) }

/-- The entropy-variable round trip is an exact identity on valid states
(positive density and pressure): spec §4.2. -/
theorem entropy_roundtrip_exact {dim ns : ℕ} (γ : ℝ) (cv : ConservedVars ℝ dim ns)
    (hγ : 1 < γ) (hρ : 0 < cv.mass) (hp : 0 < eos_pressure γ cv) :
    entropy_to_conservative_vars γ
      (conservative_to_entropy_vars γ (make_fluid_state γ cv)) = cv := by
  set ρ := cv.mass with hρdef
  set p := eos_pressure γ cv with hpdef
  have hρne : ρ ≠ 0 := ne_of_gt hρ
  have hpne : p ≠ 0 := ne_of_gt hp
  have hγne : γ - 1 ≠ 0 := sub_ne_zero.mpr (ne_of_gt hγ)
  have hβ : (0:ℝ) < ρ / p := div_pos hρ hp
  have hβne : ρ / p ≠ 0 := ne_of_gt hβ
  set ev := conservative_to_entropy_vars γ (make_fluid_state γ cv) with hev
  -- the components of the entropy variables, by definition
  have hev_energy : -ev.energy = ρ / p := by
    rw [hev]; show -(-(ρ / p)) = ρ / p; rw [neg_neg]
  have hev_mom : ∀ i, ev.momentum i = (ρ / p) * (cv.momentum i / ρ) := fun i => rfl
  have hev_sp : ∀ j, ev.species_mass j = (ρ / p) * (cv.species_mass j / ρ) := fun j => rfl
  have hev_mass : ev.mass
      = (γ - (Real.log p - γ * Real.log ρ)) / (γ - 1)
        - (ρ / p) * (∑ i, (cv.momentum i / ρ) ^ 2) / 2 := rfl
  -- the recovered velocity agrees with the original one
  have hu : ∀ i, ev.momentum i / (-ev.energy) = cv.momentum i / ρ := by
    intro i
    rw [hev_energy, hev_mom i]
    exact mul_div_cancel_left₀ _ hβne
  have hu2 : ∑ i, (ev.momentum i / (-ev.energy)) ^ 2
      = ∑ i, (cv.momentum i / ρ) ^ 2 :=
    Finset.sum_congr rfl (fun i _ => by rw [hu i])
  -- the recovered physical entropy agrees with the original one
  have hs : γ - (γ - 1) * (ev.mass + (-ev.energy) * (∑ i, (ev.momentum i / (-ev.energy)) ^ 2) / 2)
      = Real.log p - γ * Real.log ρ := by
    rw [hu2, hev_mass, hev_energy]
    field_simp
    ring
  -- the recovered density agrees with the original one
  have hρrec : Real.exp (-((γ - (γ - 1) * (ev.mass
        + (-ev.energy) * (∑ i, (ev.momentum i / (-ev.energy)) ^ 2) / 2))
      + Real.log (-ev.energy)) / (γ - 1)) = ρ := by
    rw [hs, hev_energy, Real.log_div hρne hpne]
    rw [show -((Real.log p - γ * Real.log ρ) + (Real.log ρ - Real.log p)) / (γ - 1)
        = Real.log ρ from by field_simp; ring]
    exact Real.exp_log hρ
  refine ConservedVars.ext_comp ?_ ?_ (fun i => ?_) (fun j => ?_)
  · -- mass
    show Real.exp _ = ρ
    exact hρrec
  · -- energy
    show Real.exp _ / (-ev.energy) / (γ - 1)
        + Real.exp _ * (∑ i, (ev.momentum i / (-ev.energy)) ^ 2) / 2 = cv.energy
    rw [hρrec, hu2, hev_energy]
    rw [show ρ / (ρ / p) = p from by field_simp]
    rw [show ∑ i, (cv.momentum i / ρ) ^ 2 = (∑ i, cv.momentum i ^ 2) / ρ ^ 2 from by
      rw [Finset.sum_div]; exact Finset.sum_congr rfl (fun i _ => by rw [div_pow])]
    rw [hpdef, eos_pressure]
    field_simp
    ring
  · -- momentum
    show Real.exp _ * (ev.momentum i / (-ev.energy)) = cv.momentum i
    rw [hρrec, hu i]
    field_simp
  · -- species
    show Real.exp _ * (ev.species_mass j / (-ev.energy)) = cv.species_mass j
    rw [hρrec, hev_energy, hev_sp j, mul_div_cancel_left₀ _ hβne]
    field_simp

/-- `C2`: for every valid conserved state (positive density, positive
pressure), any dimension and species count, the entropy-variable round trip
returns the original conserved state to within `1e-9` in every component
(in fact exactly, by `entropy_roundtrip_exact`). -/
theorem C2_entropy_roundtrip {dim ns : ℕ} (γ : ℝ) (cv : ConservedVars ℝ dim ns)
    (hγ : 1 < γ) (hρ : 0 < cv.mass) (hp : 0 < eos_pressure γ cv) :
    |(entropy_to_conservative_vars γ
        (conservative_to_entropy_vars γ (make_fluid_state γ cv))).mass - cv.mass| < 1e-9
    ∧ |(entropy_to_conservative_vars γ
        (conservative_to_entropy_vars γ (make_fluid_state γ cv))).energy - cv.energy| < 1e-9
    ∧ (∀ i, |(entropy_to_conservative_vars γ
        (conservative_to_entropy_vars γ (make_fluid_state γ cv))).momentum i
          - cv.momentum i| < 1e-9)
    ∧ (∀ j, |(entropy_to_conservative_vars γ
        (conservative_to_entropy_vars γ (make_fluid_state γ cv))).species_mass j
          - cv.species_mass j| < 1e-9) := by
  rw [entropy_roundtrip_exact γ cv hγ hρ hp]
  refine ⟨by norm_num, by norm_num, fun i => by norm_num, fun j => by norm_num⟩

/-- A concrete valid conserved state for the entropy round-trip witness. -/
noncomputable def c2_state : ConservedVars ℝ 1 1 :=
  ⟨1, 1, fun _ => 0, fun _ => 1/2⟩

/-- Witness for `C2_entropy_roundtrip` at `γ = 7/5` and a concrete valid
state (pressure `2/5 > 0`). -/
theorem C2_entropy_roundtrip_witness :
    |(entropy_to_conservative_vars (7/5)
        (conservative_to_entropy_vars (7/5) (make_fluid_state (7/5) c2_state))).mass
      - c2_state.mass| < 1e-9
    ∧ |(entropy_to_conservative_vars (7/5)
        (conservative_to_entropy_vars (7/5) (make_fluid_state (7/5) c2_state))).energy
      - c2_state.energy| < 1e-9
    ∧ (∀ i, |(entropy_to_conservative_vars (7/5)
        (conservative_to_entropy_vars (7/5) (make_fluid_state (7/5) c2_state))).momentum i
          - c2_state.momentum i| < 1e-9)
    ∧ (∀ j, |(entropy_to_conservative_vars (7/5)
        (conservative_to_entropy_vars (7/5) (make_fluid_state (7/5) c2_state))).species_mass j
          - c2_state.species_mass j| < 1e-9) :=
  C2_entropy_roundtrip (7/5) c2_state (by norm_num)
    (by norm_num [c2_state])
    (by norm_num [c2_state, eos_pressure, Fin.sum_univ_one])

/-! ## The time-stepping driver `_euler_flow_stepper` (src/test/test_euler.py)

The driver's numerical collaborators (initial state, RK4 step with the RHS
folded in, modal filter, inviscid timestep estimate, error norm against the
exact solution, and the mesh size `h_max`) are external to its control flow
and are modelled as an oracle bundle over an abstract state type `σ`; the
driver's own control flow (early exit, the `while t < t_final` loop, the
constant-CFL/fixed-dt branch, the status-write counter, and the final
tolerance check) is embedded from the source. -/

/-- The driver parameters read out of the `parameters` dictionary
(`src/test/test_euler.py`, lines 680-694). -/
structure FlowParams where
  time : ℚ
  tfinal : ℚ
  exittol : ℚ
  cfl : ℚ
  dt : ℚ
  constantcfl : Bool
  nstatus : ℕ

/-- The external numerical collaborators of the driver (spec §6), over an
abstract discrete fluid state `σ`. -/
structure FlowOracles (σ : Type) where
  initCv : σ
  rk4_step : σ → ℚ → ℚ → σ
  filter_modally : σ → σ
  get_inviscid_timestep : σ → ℚ
  errOf : σ → ℚ → ℚ
  h_max : ℚ

/-- The loop-carried state of the driver (`cv`, `t`, `dt`, `cfl`, `sdt`,
`istep`, plus a counter of status/visualization writes). -/
structure StepState (σ : Type) where
  cv : σ
  t : ℚ
  dt : ℚ
  cfl : ℚ
  sdt : ℚ
  istep : ℕ
  nwrites : ℕ

/-- One iteration of the `while t < t_final` loop
(`src/test/test_euler.py`, lines 782-800): select `dt`/`cfl` per the
`constantcfl` mode, possibly write a status dump, advance the state by one
filtered RK4 step, then refresh `sdt = cfl * get_inviscid_timestep(...)`. -/
def stepOnce {σ : Type} (O : FlowOracles σ) (p : FlowParams) (s : StepState σ) : StepState σ :=
  let dt := if p.constantcfl then s.sdt else s.dt
  let cfl := if p.constantcfl then s.cfl else s.dt / s.sdt
  let nwrites := if 0 < p.nstatus ∧ s.istep % p.nstatus = 0 then s.nwrites + 1 else s.nwrites
  let cv := O.filter_modally (O.rk4_step s.cv s.t dt)
  let sdt := cfl * O.get_inviscid_timestep cv
  ⟨cv, s.t + dt, dt, cfl, sdt, s.istep + 1, nwrites⟩

/-- The driver loop, with fuel bounding the number of iterations (the Python
loop runs as long as `t < t_final`; it does not terminate if `dt ≤ 0`). -/
def stepLoop {σ : Type} (O : FlowOracles σ) (p : FlowParams) :
    ℕ → StepState σ → StepState σ
  | 0, s => s
  | n + 1, s => if s.t < p.tfinal then stepLoop O p n (stepOnce O p s) else s

/-- The loop state on entry (`src/test/test_euler.py`, lines 713-717):
`cv = initializer(nodes)` and `sdt = cfl * get_inviscid_timestep(...)`. -/
def initState {σ : Type} (O : FlowOracles σ) (p : FlowParams) : StepState σ :=
  ⟨O.initCv, p.time, p.dt, p.cfl, p.cfl * O.get_inviscid_timestep O.initCv, 0, 0⟩

/-- The value a run produces: the bare scalar `0.0` of the early exit, or
the pair `(h_max, maxerr)` of a completed run. -/
inductive StepperResult where
  | scalar (x : ℚ)
  | pair (hmax maxerr : ℚ)
deriving DecidableEq

/-- The driver `_euler_flow_stepper` (`src/test/test_euler.py`,
lines 677-813): return `0.0` immediately when `t_final ≤ t`; otherwise run
the loop, measure the final error against the exact solution, raise
`ValueError` when it exceeds `exittol`, and return `(h_max, maxerr)`
otherwise. -/
def euler_flow_stepper {σ : Type} (O : FlowOracles σ) (p : FlowParams)
    (fuel : ℕ) : Except String StepperResult :=
  if p.tfinal ≤ p.time then .ok (.scalar 0)
  else
    let s := stepLoop O p fuel (initState O p)
    let maxerr := O.errOf s.cv s.t
    if p.exittol < maxerr then .error "ValueError: Solution failed to follow expected result."
    else .ok (.pair O.h_max maxerr)

/-- `C7`: when the final error of a run (one that actually steps, i.e.
`t < t_final` at entry) exceeds the caller-supplied `exittol`, the driver
raises the single terminal `ValueError` and produces no result; when the
final error is within tolerance, the run returns `(h_max, maxerr)`
normally.  There is no retry and no clamping: the outcome is exactly one of
these two, decided once at the end of stepping. -/
theorem C7_exit_tolerance {σ : Type} (O : FlowOracles σ) (p : FlowParams) (fuel : ℕ)
    (hrun : p.time < p.tfinal) :
    (p.exittol < O.errOf (stepLoop O p fuel (initState O p)).cv
        (stepLoop O p fuel (initState O p)).t →
      euler_flow_stepper O p fuel
        = .error "ValueError: Solution failed to follow expected result.")
    ∧ (O.errOf (stepLoop O p fuel (initState O p)).cv
        (stepLoop O p fuel (initState O p)).t ≤ p.exittol →
      euler_flow_stepper O p fuel
        = .ok (.pair O.h_max
            (O.errOf (stepLoop O p fuel (initState O p)).cv
              (stepLoop O p fuel (initState O p)).t))) := by
  constructor <;> intro h <;>
    simp only [euler_flow_stepper, if_neg (not_le.mpr hrun)]
  · rw [if_pos h]
  · rw [if_neg (not_lt.mpr h)]

/-- A diverging oracle bundle: the final error is always `5`. -/
def c7_oracle_bad : FlowOracles ℚ :=
  ⟨0, fun cv _ _ => cv, fun cv => cv, fun _ => 1, fun _ _ => 5, 3⟩

/-- A converging oracle bundle: the final error is always `0`. -/
def c7_oracle_good : FlowOracles ℚ :=
  ⟨0, fun cv _ _ => cv, fun cv => cv, fun _ => 1, fun _ _ => 0, 3⟩

/-- Driver parameters for a run of a single fixed step (`dt = 2` crosses
`t_final = 1` at once), with `exittol = 1`. -/
def c7_params : FlowParams := ⟨0, 1, 1, 1, 2, false, 0⟩

/-- Witness for `C7_exit_tolerance`: the same driver raises on the
diverging oracles and returns `(h_max, maxerr)` on the converging ones. -/
theorem C7_exit_tolerance_witness :
    euler_flow_stepper c7_oracle_bad c7_params 1
      = .error "ValueError: Solution failed to follow expected result."
    ∧ euler_flow_stepper c7_oracle_good c7_params 1
      = .ok (.pair c7_oracle_good.h_max
          (c7_oracle_good.errOf (stepLoop c7_oracle_good c7_params 1
              (initState c7_oracle_good c7_params)).cv
            (stepLoop c7_oracle_good c7_params 1
              (initState c7_oracle_good c7_params)).t)) :=
  ⟨(C7_exit_tolerance c7_oracle_bad c7_params 1 (by norm_num [c7_params])).1
      (by norm_num [c7_oracle_bad, c7_params]),
    (C7_exit_tolerance c7_oracle_good c7_params 1 (by norm_num [c7_params])).2
      (by norm_num [c7_oracle_good, c7_params])⟩

/-- `C8` as amended: one loop iteration supports both step-size modes.  In
constant-CFL mode `dt` is set to `sdt = cfl * get_inviscid_timestep(state)`
and `cfl` is left unchanged; in fixed-dt mode `dt` stays fixed and the
effective CFL is set to `dt / sdt` where `sdt` is the *previous* effective
CFL times the current inviscid timestep estimate (not `dt` divided by the
estimate itself).  The third conjunct re-establishes the `sdt` invariant
assumed of the incoming state. -/
theorem C8_step_modes {σ : Type} (O : FlowOracles σ) (p : FlowParams) (s : StepState σ)
    (hsdt : s.sdt = s.cfl * O.get_inviscid_timestep s.cv) :
    (p.constantcfl = true →
      (stepOnce O p s).dt = s.cfl * O.get_inviscid_timestep s.cv
      ∧ (stepOnce O p s).cfl = s.cfl)
    ∧ (p.constantcfl = false →
      (stepOnce O p s).dt = s.dt
      ∧ (stepOnce O p s).cfl = s.dt / (s.cfl * O.get_inviscid_timestep s.cv))
    ∧ (stepOnce O p s).sdt
        = (stepOnce O p s).cfl * O.get_inviscid_timestep (stepOnce O p s).cv := by
  refine ⟨fun hc => ?_, fun hc => ?_, ?_⟩
  · constructor <;> simp [stepOnce, hc, hsdt]
  · constructor <;> simp [stepOnce, hc, hsdt]
  · cases hc : p.constantcfl <;> simp [stepOnce, hc]

/-- Oracles with a constant inviscid timestep estimate of `2`. -/
def c8_oracle : FlowOracles ℚ :=
  ⟨0, fun cv _ _ => cv, fun cv => cv, fun _ => 2, fun _ _ => 0, 0⟩

/-- Fixed-dt driver parameters: `dt = 1`, caller `cfl = 1`. -/
def c8_params : FlowParams := ⟨0, 100, 1, 1, 1, false, 0⟩

/-- Constant-CFL driver parameters. -/
def c8_params_cc : FlowParams := ⟨0, 100, 1, 1, 1, true, 0⟩

/-- Counterexample to `C8` as claimed: in fixed-dt mode the claim says the
effective CFL used each step equals the fixed `dt` divided by the current
inviscid timestep estimate (`1 / 2` here, the estimate being constant), but
on the second iteration the code computes `cfl = dt / sdt` with
`sdt = previous_cfl * estimate = (1/2)*2 = 1`, giving `cfl = 1 ≠ 1/2`. -/
theorem C8_counterexample :
    (stepOnce c8_oracle c8_params
        (stepOnce c8_oracle c8_params (initState c8_oracle c8_params))).cfl
      ≠ c8_params.dt / c8_oracle.get_inviscid_timestep
          (stepOnce c8_oracle c8_params (initState c8_oracle c8_params)).cv := by
  norm_num [stepOnce, initState, c8_oracle, c8_params]

/-- Witness for `C8_step_modes`, applying it in constant-CFL mode and in
fixed-dt mode at the concrete entry state. -/
theorem C8_step_modes_witness :
    ((stepOnce c8_oracle c8_params_cc (initState c8_oracle c8_params_cc)).dt
        = (initState c8_oracle c8_params_cc).cfl
          * c8_oracle.get_inviscid_timestep (initState c8_oracle c8_params_cc).cv
      ∧ (stepOnce c8_oracle c8_params_cc (initState c8_oracle c8_params_cc)).cfl
        = (initState c8_oracle c8_params_cc).cfl)
    ∧ ((stepOnce c8_oracle c8_params (initState c8_oracle c8_params)).dt
        = (initState c8_oracle c8_params).dt
      ∧ (stepOnce c8_oracle c8_params (initState c8_oracle c8_params)).cfl
        = (initState c8_oracle c8_params).dt
          / ((initState c8_oracle c8_params).cfl
            * c8_oracle.get_inviscid_timestep (initState c8_oracle c8_params).cv)) :=
  ⟨(C8_step_modes c8_oracle c8_params_cc (initState c8_oracle c8_params_cc) rfl).1 rfl,
    ((C8_step_modes c8_oracle c8_params (initState c8_oracle c8_params) rfl).2).1 rfl⟩

theorem stepLoop_istep_le {σ : Type} (O : FlowOracles σ) (p : FlowParams) :
    ∀ (n : ℕ) (s : StepState σ), s.istep ≤ (stepLoop O p n s).istep := by
  intro n
  induction n with
  | zero => intro s; exact le_refl _
  | succ n ih =>
      intro s
      unfold stepLoop
      split
      · exact le_trans (Nat.le_succ _) (ih (stepOnce O p s))
      · exact le_refl _

/-- `C9`: when `t_final ≤ t` at entry the driver returns the scalar `0.0`
immediately — independently of every numerical collaborator, so no
discretization is consulted, no RK step is taken and no output is written —
whereas a run that takes at least one step (`t < t_final`, positive fuel)
has `istep ≥ 1` and, when it completes within tolerance, returns the pair
`(h_max, maxerr)`. -/
theorem C9_early_exit {σ : Type} (O Oalt : FlowOracles σ) (p : FlowParams) (fuel : ℕ) :
    (p.tfinal ≤ p.time →
      euler_flow_stepper O p fuel = .ok (.scalar 0)
      ∧ euler_flow_stepper O p fuel = euler_flow_stepper Oalt p fuel)
    ∧ (p.time < p.tfinal → 1 ≤ fuel →
      1 ≤ (stepLoop O p fuel (initState O p)).istep
      ∧ (O.errOf (stepLoop O p fuel (initState O p)).cv
            (stepLoop O p fuel (initState O p)).t ≤ p.exittol →
        euler_flow_stepper O p fuel
          = .ok (.pair O.h_max
              (O.errOf (stepLoop O p fuel (initState O p)).cv
                (stepLoop O p fuel (initState O p)).t)))) := by
  constructor
  · intro hle
    constructor <;> simp only [euler_flow_stepper, if_pos hle]
  · intro hlt hfuel
    constructor
    · obtain ⟨m, rfl⟩ : ∃ m, fuel = m + 1 :=
        ⟨fuel - 1, (Nat.succ_pred_eq_of_pos hfuel).symm⟩
      unfold stepLoop
      rw [if_pos (show (initState O p).t < p.tfinal from hlt)]
      calc 1 = (stepOnce O p (initState O p)).istep := by simp [stepOnce, initState]
        _ ≤ _ := stepLoop_istep_le O p m _
    · intro h
      simp only [euler_flow_stepper, if_neg (not_le.mpr hlt)]
      rw [if_neg (not_lt.mpr h)]

/-- Oracles for the `C9` witness runs. -/
def c9_oracle : FlowOracles ℚ :=
  ⟨0, fun cv _ _ => cv, fun cv => cv, fun _ => 1, fun _ _ => 0, 7⟩

/-- A second, different oracle bundle, to exhibit that the early exit never
consults the collaborators. -/
def c9_oracle_alt : FlowOracles ℚ :=
  ⟨42, fun cv _ _ => cv + 1, fun cv => cv * 2, fun _ => 9, fun _ _ => 3, 8⟩

/-- Parameters with `t_final ≤ t` at entry. -/
def c9_params_early : FlowParams := ⟨1, 0, 1, 1, 2, false, 0⟩

/-- Parameters for a run taking one step. -/
def c9_params_run : FlowParams := ⟨0, 1, 1, 1, 2, false, 0⟩

/-- Witness for `C9_early_exit`: the early exit at concrete inputs, and a
concrete one-step run returning the pair. -/
theorem C9_early_exit_witness :
    (euler_flow_stepper c9_oracle c9_params_early 1 = .ok (.scalar 0)
      ∧ euler_flow_stepper c9_oracle c9_params_early 1
        = euler_flow_stepper c9_oracle_alt c9_params_early 1)
    ∧ (1 ≤ (stepLoop c9_oracle c9_params_run 1 (initState c9_oracle c9_params_run)).istep
      ∧ euler_flow_stepper c9_oracle c9_params_run 1
        = .ok (.pair c9_oracle.h_max
            (c9_oracle.errOf (stepLoop c9_oracle c9_params_run 1
                (initState c9_oracle c9_params_run)).cv
              (stepLoop c9_oracle c9_params_run 1
                (initState c9_oracle c9_params_run)).t))) :=
  ⟨(C9_early_exit c9_oracle c9_oracle_alt c9_params_early 1).1
      (by norm_num [c9_params_early]),
    ⟨((C9_early_exit c9_oracle c9_oracle_alt c9_params_run 1).2
        (by norm_num [c9_params_run]) (le_refl 1)).1,
      ((C9_early_exit c9_oracle c9_oracle_alt c9_params_run 1).2
        (by norm_num [c9_params_run]) (le_refl 1)).2
        (by norm_num [c9_oracle, c9_params_run])⟩⟩

/-! ## `get_box_mesh` (src/get_box_mesh.py) -/

/-- The axis-name table (`dim_names = ["x","y","z"]`). -/
def dim_names : List String := ["x", "y", "z"]

/-- The `boundary_tag_to_face` dictionary built by the loop
`for i in range(dim)`, in insertion order.  Each iteration reads
`dim_names[i]` before inserting; an out-of-range index aborts the whole
construction (Python raises `IndexError`), modelled as `none`. -/
def buildBoundaryTagToFace (dim : ℕ) : Option (List (String × List String)) :=
  (List.range dim).foldlM
    (fun acc i => (dim_names.get? i).map
      (fun nm => acc ++ [("-" ++ toString (i + 1), ["-" ++ nm]),
                         ("+" ++ toString (i + 1), ["+" ++ nm])]))
    []

/-- A scalar-or-tuple argument, as the Python function distinguishes via
`type(a) == tuple`. -/
inductive BoxSpec (α : Type) where
  | scalar (x : α)
  | tup (xs : List α)
deriving DecidableEq

/-- Expansion `(a,)*dim` applied to a scalar argument (the tuple branch
passes the argument through unchanged). -/
def BoxSpec.expand {α : Type} (dim : ℕ) : BoxSpec α → BoxSpec α
  | .scalar x => .tup (List.replicate dim x)
  | .tup xs => .tup xs

/-- The argument record handed to the external
`generate_regular_rect_mesh`; building it is the model of "a mesh is
generated". -/
structure GenRectMeshArgs where
  a : BoxSpec ℚ
  b : BoxSpec ℚ
  n : BoxSpec ℕ
  boundary_tag_to_face : List (String × List String)
  mesh_type : Option String
  periodic : List Bool
deriving DecidableEq

/-- `get_box_mesh(dim, a, b, n, t=None, periodic=None)`
(`src/get_box_mesh.py`): default the periodicity to `(False,)*dim`, build
the boundary-tag dictionary (failing for `dim > 3` when `dim_names[i]` is
out of range), then call the mesh generator, splatting scalar `a`, `b`, `n`
to per-axis tuples when `a` is not a tuple. -/
def get_box_mesh (dim : ℕ) (a b : BoxSpec ℚ) (n : BoxSpec ℕ)
    (t : Option String) (periodic : Option (List Bool)) : Option GenRectMeshArgs :=
  let periodic := periodic.getD (List.replicate dim false)
  (buildBoundaryTagToFace dim).map (fun bttf =>
    match a with
    | .tup _ => ⟨a, b, n, bttf, t, periodic⟩
    | .scalar _ => ⟨a.expand dim, b.expand dim, n.expand dim, bttf, t, periodic⟩)

theorem dim_names_get_ge_three (k : ℕ) (hk : 3 ≤ k) : dim_names.get? k = none := by
  obtain ⟨m, rfl⟩ : ∃ m, k = m + 3 := ⟨k - 3, by omega⟩
  simp [dim_names]

theorem buildBoundaryTagToFace_ge_four (dim : ℕ) (h : 3 < dim) :
    buildBoundaryTagToFace dim = none := by
  obtain ⟨m, rfl⟩ : ∃ m, dim = (m + 3) + 1 := ⟨dim - 4, by omega⟩
  unfold buildBoundaryTagToFace
  rw [List.range_succ, List.foldlM_append]
  cases hfold : (List.range (m + 3)).foldlM
      (fun acc i => (dim_names.get? i).map
        (fun nm => acc ++ [("-" ++ toString (i + 1), ["-" ++ nm]),
                           ("+" ++ toString (i + 1), ["+" ++ nm])]))
      ([] : List (String × List String)) with
  | none => rfl
  | some acc => rfl

/-- `C10`: for `1 ≤ dim ≤ 3` the `boundary_tag_to_face` mapping passed to
the generator has exactly `2*dim` entries, with tag `"-i"` mapped to
`["-" ++ name]` and `"+i"` to `["+" ++ name]` for the `i`-th axis name of
`x, y, z`; omitted periodicity defaults to no periodicity in all `dim`
directions; and for `dim > 3` the construction fails out-of-range before
any mesh is generated. -/
theorem C10_get_box_mesh (dim : ℕ) (a b : BoxSpec ℚ) (n : BoxSpec ℕ) (t : Option String) :
    (1 ≤ dim → dim ≤ 3 →
      ∃ l, buildBoundaryTagToFace dim = some l
        ∧ l.length = 2 * dim
        ∧ (∀ i, i < dim → ∃ nm, dim_names.get? i = some nm
            ∧ l.get? (2 * i) = some ("-" ++ toString (i + 1), ["-" ++ nm])
            ∧ l.get? (2 * i + 1) = some ("+" ++ toString (i + 1), ["+" ++ nm]))
        ∧ ∃ g, get_box_mesh dim a b n t none = some g
            ∧ g.periodic = List.replicate dim false)
    ∧ (3 < dim → get_box_mesh dim a b n t none = none) := by
  constructor
  · intro h1 h3
    interval_cases dim
    · refine ⟨[("-1", ["-x"]), ("+1", ["+x"])], by decide, by decide, ?_, ?_⟩
      · intro i hi
        interval_cases i
        exact ⟨"x", by decide, by decide, by decide⟩
      · cases a with
        | tup xs => exact ⟨_, rfl, rfl⟩
        | scalar x => exact ⟨_, rfl, rfl⟩
    · refine ⟨[("-1", ["-x"]), ("+1", ["+x"]), ("-2", ["-y"]), ("+2", ["+y"])],
        by decide, by decide, ?_, ?_⟩
      · intro i hi
        interval_cases i
        · exact ⟨"x", by decide, by decide, by decide⟩
        · exact ⟨"y", by decide, by decide, by decide⟩
      · cases a with
        | tup xs => exact ⟨_, rfl, rfl⟩
        | scalar x => exact ⟨_, rfl, rfl⟩
    · refine ⟨[("-1", ["-x"]), ("+1", ["+x"]), ("-2", ["-y"]), ("+2", ["+y"]),
        ("-3", ["-z"]), ("+3", ["+z"])], by decide, by decide, ?_, ?_⟩
      · intro i hi
        interval_cases i
        · exact ⟨"x", by decide, by decide, by decide⟩
        · exact ⟨"y", by decide, by decide, by decide⟩
        · exact ⟨"z", by decide, by decide, by decide⟩
      · cases a with
        | tup xs => exact ⟨_, rfl, rfl⟩
        | scalar x => exact ⟨_, rfl, rfl⟩
  · intro h
    simp [get_box_mesh, buildBoundaryTagToFace_ge_four dim h]

/-- Witness for `C10_get_box_mesh`, at `dim = 2` (success shape) and
`dim = 4` (out-of-range failure). -/
theorem C10_get_box_mesh_witness :
    (∃ l, buildBoundaryTagToFace 2 = some l
        ∧ l.length = 2 * 2
        ∧ (∀ i, i < 2 → ∃ nm, dim_names.get? i = some nm
            ∧ l.get? (2 * i) = some ("-" ++ toString (i + 1), ["-" ++ nm])
            ∧ l.get? (2 * i + 1) = some ("+" ++ toString (i + 1), ["+" ++ nm]))
        ∧ ∃ g, get_box_mesh 2 (.scalar 0) (.scalar 1) (.scalar 4) none none = some g
            ∧ g.periodic = List.replicate 2 false)
    ∧ get_box_mesh 4 (.scalar 0) (.scalar 1) (.scalar 4) none none = none :=
  ⟨(C10_get_box_mesh 2 (.scalar 0) (.scalar 1) (.scalar 4) none).1
      (by norm_num) (by norm_num),
    (C10_get_box_mesh 4 (.scalar 0) (.scalar 1) (.scalar 4) none).2 (by norm_num)⟩
